import Mathlib

/-!
Shallow embedding of `python-domino-environments`:

* `src/domino_environments/utils.py` — `list_to_string`, `parse_plain_text`,
  `parse_dockerfile`, `REVISION_PARSERS`, `parse_revision_tar`;
* `src/domino_environments/_environments.py` — the form-payload part of
  `EnvironmentManager.create_revision` (lines 303-349) and the initialisation
  sequence `EnvironmentManager.__init__` / `_initialise_request_manager`.

File contents are modelled as decoded text (`String`); a tar member whose
`extractfile` result is `None` in Python (a non-regular entry such as a
directory) is modelled with `content = none`.  Python exceptions are modelled
with `Except String`.
-/

namespace DominoEnv

/-! ### Python string primitives -/

/-- The line-boundary characters recognised by Python `str.splitlines`:
`\n`, `\r` (with `\r\n` counting as one boundary), `\v`, `\f`,
file/group/record separators, NEL, LINE SEPARATOR and PARAGRAPH SEPARATOR. -/
def isLineBoundary (c : Char) : Bool :=
  c = '\n' || c = '\r' || c.toNat = 0x0b || c.toNat = 0x0c ||
  c.toNat = 0x1c || c.toNat = 0x1d || c.toNat = 0x1e ||
  c.toNat = 0x85 || c.toNat = 0x2028 || c.toNat = 0x2029

/-- Worker for `pySplitlines`: `acc` holds the current (reversed) line;
`crFlag` records that the previous character was a `\r` whose line was
already emitted, so that a following `\n` is part of the same `\r\n`
boundary and emits nothing. -/
def splitlinesAux : List Char → Bool → List Char → List String
  | [], _, acc => if acc.isEmpty then [] else [String.mk acc.reverse]
  | c :: rest, crFlag, acc =>
    if c = '\n' && crFlag then splitlinesAux rest false acc
    else if c = '\r' then String.mk acc.reverse :: splitlinesAux rest true []
    else if isLineBoundary c then String.mk acc.reverse :: splitlinesAux rest false []
    else splitlinesAux rest false (c :: acc)

/-- Python `str.splitlines()`: split at line boundaries (with `\r\n` as one
boundary), terminators removed; a trailing terminator does not produce an
extra empty line. -/
def pySplitlines (s : String) : List String :=
  splitlinesAux s.data false []

/-- Python `str.strip(chars)`: remove from both ends every character that is a
member of the set `chars` (NOT prefix/suffix removal). -/
def pyStrip (chars : List Char) (s : String) : String :=
  String.mk (((s.data.dropWhile chars.contains).reverse.dropWhile chars.contains).reverse)

/-- Python list slice `l[2:-2]`. -/
def pySliceTwoToMinusTwo (l : List α) : List α :=
  (l.drop 2).take (l.length - 4)

/-- Python `or` on optional strings, with `""` falsy (`a or b`). -/
def pyOr (a b : Option String) : Option String :=
  match a with
  | some s => if s = "" then b else some s
  | none => b

/-- Python truthiness of an optional string (`if x:`). -/
def pyTruthy : Option String → Bool
  | some s => s ≠ ""
  | none => false

/-! ### `utils.py` -/

/-- Argument type of `utils.list_to_string(val, separator="\n")`:
`Union[str, List[str]]` values.  All call sites in `create_revision` use the default separator. -/
inductive StrOrLines where
  | str (s : String)
  | lines (l : List String)
deriving DecidableEq, Repr

/-- Models `utils.list_to_string`: join a list with `"\n"`, pass a string through. -/
def list_to_string : StrOrLines → String
  | .str s => s
  | .lines l => String.intercalate "\n" l

/-- Models `utils.parse_plain_text(file_obj)`: if the object is a readable file
(`io.BufferedReader`), decode and split into lines; otherwise return `[]`. -/
def parse_plain_text : Option String → List String
  | none => []
  | some content => pySplitlines content

/-- Result of `utils.parse_dockerfile` when the file object was readable:
the Python dict `{"base_image": ..., "instructions": ...}`. -/
structure DockerInfo where
  base_image : String
  instructions : List String
deriving DecidableEq, Repr

/-- The character set `"FROM "` passed to `str.strip` in `parse_dockerfile`. -/
def fromChars : List Char := ['F', 'R', 'O', 'M', ' ']

/-- Models `utils.parse_dockerfile(file_obj)`: a `none` input (not a `BufferedReader`)
yields the empty dict; otherwise `lines[0]` raises `IndexError` on empty
content, else the dict built from `lines[0].strip("FROM ")` and
`lines[2:-2]`. -/
def parse_dockerfile : Option String → Except String (Option DockerInfo)
  | none => .ok none
  | some content =>
    match pySplitlines content with
    | [] => .error "IndexError: list index out of range"
    | line0 :: _ =>
      .ok (some { base_image := pyStrip fromChars line0,
                  instructions := pySliceTwoToMinusTwo (pySplitlines content) })

/-- A parsed value in the mapping returned by `parse_revision_tar`:
a `Dockerfile` entry parses to a dict, script entries to a list of lines. -/
inductive ParsedContent where
  | docker (d : Option DockerInfo)
  | text (lines : List String)
deriving DecidableEq, Repr

/-- The keys of the `REVISION_PARSERS` dispatch table. -/
def parserNames : List String :=
  ["Dockerfile", "preSetupScript.sh", "postSetupScript.sh",
   "preRunScript.sh", "postRunScript.sh"]

/-- Models `REVISION_PARSERS.get(file_name)`: the dispatch table of `utils.py`. -/
def revisionParsers (name : String) :
    Option (Option String → Except String ParsedContent) :=
  if name = "Dockerfile" then
    some fun c => (parse_dockerfile c).map ParsedContent.docker
  else if name = "preSetupScript.sh" then
    some fun c => .ok (ParsedContent.text (parse_plain_text c))
  else if name = "postSetupScript.sh" then
    some fun c => .ok (ParsedContent.text (parse_plain_text c))
  else if name = "preRunScript.sh" then
    some fun c => .ok (ParsedContent.text (parse_plain_text c))
  else if name = "postRunScript.sh" then
    some fun c => .ok (ParsedContent.text (parse_plain_text c))
  else none

/-- A member of the tar archive: `name` is the full path inside the archive,
`content` its decoded bytes (`none` for a non-regular entry, for which
`tar.extractfile` returns `None`). -/
structure TarMember where
  name : String
  content : Option String
deriving DecidableEq, Repr

/-- Python `name.split("/")`: split at every `/`; always nonempty
(`"".split("/") == [""]`). `acc` holds the current reversed segment. -/
def splitSlashAux : List Char → List Char → List String
  | [], acc => [String.mk acc.reverse]
  | c :: rest, acc =>
    if c = '/' then String.mk acc.reverse :: splitSlashAux rest []
    else splitSlashAux rest (c :: acc)

/-- Models `member.name.split("/")[-1]`: the final path segment. -/
def basename (s : String) : String :=
  (splitSlashAux s.data []).getLastD ""

/-- Models `tar.extractfile(name)`: tarfile resolves a name to the LAST member
carrying it ("its last occurrence is assumed to be the most up-to-date
version").  In `parse_revision_tar` the name always comes from
`getmembers()`, so the `none` fallback (Python `KeyError`) is unreachable. -/
def extractfile (tar : List TarMember) (nm : String) : Option String :=
  match (tar.filter fun m => m.name == nm).getLast? with
  | some m => m.content
  | none => none

/-- A Python dict with `String` keys, as an insertion-ordered list of pairs. -/
abbrev PyDict (V : Type) := List (String × V)

/-- Assignment `d[k] = v` on a Python dict: overwrite in place if the key is present
(keeping its position), else append. -/
def dictSet (d : PyDict V) (k : String) (v : V) : PyDict V :=
  if d.any fun p => p.1 == k then
    d.map fun p => if p.1 == k then (k, v) else p
  else d ++ [(k, v)]

/-- Lookup `d.get(k)` on a Python dict. -/
def dictGet (d : PyDict V) (k : String) : Option V :=
  (d.find? fun p => p.1 == k).map Prod.snd

/-- The member loop of `parse_revision_tar`: `tar` is the full archive used
for `extractfile`, the last argument the members remaining to iterate. -/
def parseMembers (tar : List TarMember) (acc : PyDict ParsedContent) :
    List TarMember → Except String (PyDict ParsedContent)
  | [] => .ok acc
  | m :: rest =>
    match revisionParsers (basename m.name) with
    | none => parseMembers tar acc rest
    | some pf =>
      match pf (extractfile tar m.name) with
      | .error e => .error e
      | .ok v => parseMembers tar (dictSet acc (basename m.name) v) rest

/-- Models `utils.parse_revision_tar(file_obj)` on an already-decoded member list. -/
def parse_revision_tar (tar : List TarMember) :
    Except String (PyDict ParsedContent) :=
  parseMembers tar [] tar

/-! ### `_environments.py`: the form payload of `create_revision` -/

/-- A value stored in the `form_payload` dict: a string, or the Python
boolean `True` assigned to `noCache`. -/
inductive FormValue where
  | str (s : String)
  | pybool (b : Bool)
deriving DecidableEq, Repr

/-- A decimal digit character (only ever applied to numbers below ten). -/
def decDigit : Nat → Char
  | 0 => '0' | 1 => '1' | 2 => '2' | 3 => '3' | 4 => '4'
  | 5 => '5' | 6 => '6' | 7 => '7' | 8 => '8' | _ => '9'

/-- Fuel-based worker for `decChars`; with fuel above `n` the fuel never
runs out. -/
def decCharsAux : Nat → Nat → List Char
  | 0, _ => []
  | fuel + 1, n =>
    if n < 10 then [decDigit n]
    else decCharsAux fuel (n / 10) ++ [decDigit (n % 10)]

/-- Decimal digit string of a natural number, most significant first. -/
def decChars (n : Nat) : List Char :=
  decCharsAux (n + 1) n

/-- Python `str(idx)` for a nonnegative index, as used by the f-string
`f"buildEnvironmentVariables[\x7bidx\x7d].name"`. -/
def pyStr (n : Nat) : String := String.mk (decChars n)

/-- The key `"buildEnvironmentVariables[" + str(i) + suffix` of the
environment-variable loop (`suffix` is `"].name"` or `"].value"`). -/
def envVarKey (i : Nat) (suffix : String) : String :=
  "buildEnvironmentVariables[" ++ pyStr i ++ suffix

/-- The `environment_variables` argument: `Union[dict, List[tuple]]`; a dict
is recorded with its insertion order. -/
inductive EnvVarInput where
  | dict (items : List (String × String))
  | pairs (items : List (String × String))
deriving DecidableEq, Repr

/-- Conversion `list(environment_variables.items())` for a dict, identity for a list. -/
def envItems : EnvVarInput → List (String × String)
  | .dict l => l
  | .pairs l => l

/-- The arguments of `EnvironmentManager.create_revision` that feed the form
payload (the `environment` argument only feeds the request URL). -/
structure RevisionArgs where
  image_type : String
  docker_image : String
  base_environment_revision_id : Option String
  base_default_environment_image : Option String
  dockerfile_instructions : StrOrLines
  workspace_tools : StrOrLines
  pre_run_script : StrOrLines
  post_run_script : StrOrLines
  pre_setup_script : StrOrLines
  post_setup_script : StrOrLines
  environment_variables : Option EnvVarInput
  docker_arguments : StrOrLines
  force_rebuild : Bool
  should_use_vpn : Bool
  cluster_types : Option String
  summary : String

/-- Fallback `if not x: x = default` on a string argument that defaults to `None`
(lines 303-307; the defaults come from the manager's cached default
environment). -/
def resolveDefault (v : Option String) (dflt : String) : String :=
  match v with
  | none => dflt
  | some s => if s = "" then dflt else s

/-- The dict literal of lines 318-331; its twelve keys are pairwise distinct,
so the literal is this insertion-ordered pair list. -/
def basePairs (dfltRev dfltImg : String) (a : RevisionArgs) : PyDict FormValue :=
  [("base.imageType", .str a.image_type),
   ("base.dockerImage", .str a.docker_image),
   ("base.baseEnvironmentRevisionId",
     .str (resolveDefault a.base_environment_revision_id dfltRev)),
   ("base.defaultEnvironmentImage",
     .str (resolveDefault a.base_default_environment_image dfltImg)),
   ("dockerfileInstructions", .str (list_to_string a.dockerfile_instructions)),
   ("properties", .str (list_to_string a.workspace_tools)),
   ("preRunScript", .str (list_to_string a.pre_run_script)),
   ("postRunScript", .str (list_to_string a.post_run_script)),
   ("preSetupScript", .str (list_to_string a.pre_setup_script)),
   ("postSetupScript", .str (list_to_string a.post_setup_script)),
   ("dockerArguments", .str (list_to_string a.docker_arguments)),
   ("summary", .str a.summary)]

/-- The `for idx, (key, val) in enumerate(environment_variables)` loop of
lines 338-340, starting at index `i`. -/
def addEnvVars (d : PyDict FormValue) (i : Nat) :
    List (String × String) → PyDict FormValue
  | [] => d
  | (key, val) :: rest =>
    addEnvVars
      (dictSet (dictSet d (envVarKey i "].name") (.str key))
        (envVarKey i "].value") (.str val))
      (i + 1) rest

/-- The payload after the `if environment_variables:` block (lines 318-340):
the base dict extended by the enumerated environment-variable keys (the
truthiness test skips `None` and empty collections). -/
def envSection (dfltRev dfltImg : String) (a : RevisionArgs) : PyDict FormValue :=
  match a.environment_variables with
  | none => basePairs dfltRev dfltImg a
  | some ev =>
    if (envItems ev).isEmpty then basePairs dfltRev dfltImg a
    else addEnvVars (basePairs dfltRev dfltImg a) 0 (envItems ev)

/-- The `form_payload` dict that `create_revision` posts (lines 303-349). -/
def createRevisionFormPayload (dfltRev dfltImg : String) (a : RevisionArgs) :
    PyDict FormValue :=
  let d1 := envSection dfltRev dfltImg a
  let d2 := if a.force_rebuild then dictSet d1 "noCache" (.pybool true) else d1
  let d3 := if a.should_use_vpn then dictSet d2 "shouldUseVPN" (.str "on") else d2
  match a.cluster_types with
  | none => d3
  | some ct => if ct = "" then d3 else dictSet d3 "clusterTypes[]" (.str ct)

/-- The environment-variable pairs of a `create_revision` call, in input
order (a dict contributes its insertion order). -/
def envItemsOf (a : RevisionArgs) : List (String × String) :=
  match a.environment_variables with
  | none => []
  | some ev => envItems ev

/-- A key produced by the environment-variable loop: it starts with the
fixed prefix `"buildEnvironmentVariables["`. -/
def isEnvKey (k : String) : Bool :=
  "buildEnvironmentVariables[".data.isPrefixOf k.data

/-- The pairs appended by the environment-variable loop starting at index
`i`: name and value key for each input pair, in input order. -/
def envPairs : Nat → List (String × String) → PyDict FormValue
  | _, [] => []
  | i, (key, val) :: rest =>
    (envVarKey i "].name", .str key) :: (envVarKey i "].value", .str val) ::
      envPairs (i + 1) rest

/-- The twelve keys of the base dict literal of lines 318-331. -/
def baseKeys : List String :=
  ["base.imageType", "base.dockerImage", "base.baseEnvironmentRevisionId",
   "base.defaultEnvironmentImage", "dockerfileInstructions", "properties",
   "preRunScript", "postRunScript", "preSetupScript", "postSetupScript",
   "dockerArguments", "summary"]

/-- Bookkeeping predicate for the environment-variable loop: a key already in
the dict when the loop reaches index `i` is either no loop key at all or a
loop key of an earlier index. -/
def keyBelow (i : Nat) (k : String) : Prop :=
  isEnvKey k = false ∨
    ∃ j, j < i ∧ (k = envVarKey j "].name" ∨ k = envVarKey j "].value")

/-! ### `_environments.py`: manager initialisation -/

/-- The authentication of the request manager that
`_initialise_request_manager` would construct. -/
inductive AuthMethod where
  | bearerToken (domino_token_file : String)
  | apiKeyAuth (api_key : String)
deriving DecidableEq, Repr

/-- Models `EnvironmentManager._initialise_request_manager` (lines 182-193): raise
when both arguments are `None`, prefer bearer-token auth, fall back to API-key
auth.  An `.ok` result is where `_HttpRequestManager` gets constructed. -/
def initialise_request_manager (api_key domino_token_file : Option String) :
    Except String AuthMethod :=
  match api_key, domino_token_file with
  | none, none =>
    .error ("Either api_key or path_to_domino_token_file " ++
      "must be provided via class constructor or environment variable")
  | _, some tok => .ok (.bearerToken tok)
  | some k, none => .ok (.apiKeyAuth k)

/-- The explicit parameters and environment variables read by
`EnvironmentManager.__init__`. -/
structure InitEnv where
  host_param : Option String
  api_key_param : Option String
  token_file_param : Option String
  env_host : Option String
  env_api_key : Option String
  env_token_file : Option String
deriving DecidableEq, Repr

/-- Externally observable effects of `__init__` in order of occurrence. -/
inductive InitEvent where
  | requestManagerCreated
  | requestIssued (url : String)
deriving DecidableEq, Repr

/-- Stub for `domino.helpers.clean_host_url` (external `python-domino` package, not
part of this repository): normalises the URL, never raises; modelled as the
identity, which no claim depends on. -/
def clean_host_url (s : String) : String := s

/-- Models `EnvironmentManager.__init__` (lines 125-156) up to its first network
request: resolve the host (raising when falsy), resolve token file and API
key with `or`-fallback to environment variables, initialise the request
manager, then issue the `deployment_version` GET.  Later steps (version
compatibility, `refresh_defaults`) depend on the remote's responses and are
outside this model. -/
def managerInit (e : InitEnv) : List InitEvent × Except String AuthMethod :=
  match pyOr e.host_param e.env_host with
  | none => ([], .error "Host must be supplied as a parameter or through the ")
  | some h =>
    if h = "" then ([], .error "Host must be supplied as a parameter or through the ")
    else
      let host := clean_host_url h
      let domino_token_file := pyOr e.token_file_param e.env_token_file
      let api_key := pyOr e.api_key_param e.env_api_key
      match initialise_request_manager api_key domino_token_file with
      | .error msg => ([], .error msg)
      | .ok auth =>
        ([.requestManagerCreated, .requestIssued (host ++ "/version")], .ok auth)

/-! ### String and splitlines lemmas -/

/-- The member occurring latest in archive order whose basename is `nm`. -/
def lastWith (nm : String) (l : List TarMember) : Option TarMember :=
  (l.filter fun m => basename m.name == nm).getLast?

/-- A sequence of lines, each terminated by `"\n"`, as one text. -/
def joinLines : List String → String
  | [] => ""
  | l :: rest => l ++ "\n" ++ joinLines rest

/-- text free of Python line-boundary characters -/
def noEol (s : String) : Prop := ∀ c ∈ s.data, isLineBoundary c = false

instance (s : String) : Decidable (noEol s) := by unfold noEol; infer_instance

theorem data_append (s t : String) : (s ++ t).data = s.data ++ t.data := rfl

theorem data_injective {s t : String} (h : s.data = t.data) : s = t := by
  obtain ⟨d⟩ := s; obtain ⟨e⟩ := t
  have hd : d = e := h
  rw [hd]

theorem mk_data (s : String) : String.mk s.data = s := by
  obtain ⟨d⟩ := s; rfl

theorem data_eq_nil {s : String} : s.data = [] ↔ s = "" := by
  constructor
  · intro h; exact data_injective h
  · intro h; rw [h]

theorem splitlinesAux_ne_nil :
    ∀ (xs acc : List Char), xs ≠ [] ∨ acc ≠ [] → splitlinesAux xs false acc ≠ [] := by
  intro xs
  induction xs with
  | nil =>
    intro acc h
    rcases h with h | h
    · exact absurd rfl h
    · simp [splitlinesAux, h]
  | cons c rest ih =>
    intro acc _
    by_cases hr : c = '\r'
    · simp [splitlinesAux, hr]
    · by_cases hb : isLineBoundary c
      · simp [splitlinesAux, hr, hb]
      · simp only [splitlinesAux, Bool.and_false, Bool.false_eq_true, if_false, if_neg hr,
          if_neg (by simp [hb] : ¬isLineBoundary c = true)]
        exact ih (c :: acc) (Or.inr (by simp))

theorem splitlinesAux_no_boundary :
    ∀ (xs acc : List Char), (∀ c ∈ xs, isLineBoundary c = false) →
      xs ≠ [] ∨ acc ≠ [] →
      splitlinesAux xs false acc = [String.mk (acc.reverse ++ xs)] := by
  intro xs
  induction xs with
  | nil =>
    intro acc _ h
    rcases h with h | h
    · exact absurd rfl h
    · simp [splitlinesAux, h]
  | cons c rest ih =>
    intro acc hnb _
    have hc : isLineBoundary c = false := hnb c (by simp)
    have hr : c ≠ '\r' := by
      intro hh; rw [hh] at hc; simp [isLineBoundary] at hc
    simp only [splitlinesAux, Bool.and_false, Bool.false_eq_true, if_false, if_neg hr, hc]
    rw [ih (c :: acc) (fun d hd => hnb d (by simp [hd])) (Or.inr (by simp))]
    simp

theorem splitlinesAux_newline :
    ∀ (xs acc rest : List Char), (∀ c ∈ xs, isLineBoundary c = false) →
      splitlinesAux (xs ++ '\n' :: rest) false acc =
        String.mk (acc.reverse ++ xs) :: splitlinesAux rest false [] := by
  intro xs
  induction xs with
  | nil =>
    intro acc rest _
    simp [splitlinesAux, isLineBoundary]
  | cons c tail ih =>
    intro acc rest hnb
    have hc : isLineBoundary c = false := hnb c (by simp)
    have hr : c ≠ '\r' := by
      intro hh; rw [hh] at hc; simp [isLineBoundary] at hc
    have step := ih (c :: acc) rest (fun d hd => hnb d (by simp [hd]))
    simp only [List.cons_append, splitlinesAux, Bool.and_false, Bool.false_eq_true, if_false,
      if_neg hr, hc]
    exact step.trans (by simp)

/-- Evaluation of `pySplitlines` on one `"\n"`-terminated line followed by more text. -/
theorem pySplitlines_line (s t : String) (h : noEol s) :
    pySplitlines (s ++ "\n" ++ t) = s :: pySplitlines t := by
  unfold pySplitlines
  have hd : (s ++ "\n" ++ t).data = s.data ++ '\n' :: t.data := by
    rw [data_append, data_append, List.append_assoc]
    rfl
  rw [hd, splitlinesAux_newline s.data [] t.data h]
  simp [mk_data]

/-- Evaluation of `pySplitlines` on a terminator-free nonempty final line. -/
theorem pySplitlines_last (s : String) (h : noEol s) (hne : s ≠ "") :
    pySplitlines s = [s] := by
  unfold pySplitlines
  rw [splitlinesAux_no_boundary s.data [] h (Or.inl (fun hh => hne (data_eq_nil.mp hh)))]
  simp [mk_data]

/-! ### Python dict lemmas -/

theorem dictSet_append {V : Type} (d : PyDict V) (k : String) (v : V)
    (h : ∀ p ∈ d, p.1 ≠ k) : dictSet d k v = d ++ [(k, v)] := by
  unfold dictSet
  rw [if_neg]
  simp only [List.any_eq_true, beq_iff_eq, not_exists]
  intro p
  intro hp
  exact h p hp.1 hp.2

theorem dictGet_nil {V : Type} (k : String) : dictGet ([] : PyDict V) k = none := rfl

theorem dictGet_cons {V : Type} (p : String × V) (d : PyDict V) (k : String) :
    dictGet (p :: d) k = if p.1 = k then some p.2 else dictGet d k := by
  unfold dictGet
  by_cases h : p.1 = k
  · rw [List.find?_cons_of_pos _ (by simp [h]), if_pos h]
    rfl
  · rw [List.find?_cons_of_neg _ (by simp [h]), if_neg h]

theorem dictGet_append_right {V : Type} (d1 d2 : PyDict V) (k : String)
    (h : ∀ p ∈ d1, p.1 ≠ k) : dictGet (d1 ++ d2) k = dictGet d2 k := by
  induction d1 with
  | nil => rfl
  | cons p rest ih =>
    rw [List.cons_append, dictGet_cons, if_neg (h p (by simp))]
    exact ih fun q hq => h q (by simp [hq])

theorem dictGet_dictSet_self {V : Type} (d : PyDict V) (k : String) (v : V) :
    dictGet (dictSet d k v) k = some v := by
  unfold dictSet
  by_cases hany : (d.any fun p => p.1 == k) = true
  · rw [if_pos hany]
    induction d with
    | nil => simp at hany
    | cons p rest ih =>
      rw [List.map_cons]
      by_cases hp : p.1 = k
      · rw [if_pos (by simp [hp] : ((p.1 == k) = true)), dictGet_cons, if_pos rfl]
      · rw [if_neg (by simp [hp] : ¬((p.1 == k) = true)), dictGet_cons, if_neg hp]
        refine ih ?_
        simp only [List.any_cons, beq_iff_eq] at hany
        rcases Bool.or_eq_true_iff.mp hany with h1 | h1
        · exact absurd (by simpa using h1) hp
        · exact h1
  · rw [if_neg hany]
    have h1 : ∀ p ∈ d, p.1 ≠ k := by
      intro p hp hk
      exact hany (by simp only [List.any_eq_true, beq_iff_eq]; exact ⟨p, hp, hk⟩)
    rw [dictGet_append_right d [(k, v)] k h1, dictGet_cons, if_pos rfl]

theorem dictGet_dictSet_other {V : Type} (d : PyDict V) (k k' : String) (v : V)
    (h : k' ≠ k) : dictGet (dictSet d k v) k' = dictGet d k' := by
  unfold dictSet
  by_cases hany : (d.any fun p => p.1 == k) = true
  · rw [if_pos hany]
    clear hany
    induction d with
    | nil => rfl
    | cons p rest ih =>
      rw [List.map_cons, dictGet_cons]
      by_cases hp : p.1 = k
      · rw [if_pos (by simp [hp] : ((p.1 == k) = true))]
        rw [dictGet_cons, if_neg (fun hh => h hh.symm),
          if_neg (by rw [hp]; exact fun hh => h hh.symm)]
        exact ih
      · rw [if_neg (by simp [hp] : ¬((p.1 == k) = true)), dictGet_cons]
        by_cases hp' : p.1 = k'
        · rw [if_pos hp', if_pos hp']
        · rw [if_neg hp', if_neg hp']
          exact ih
  · rw [if_neg hany]
    induction d with
    | nil => rw [List.nil_append, dictGet_cons, dictGet_nil, if_neg (fun hh => h hh.symm)]
    | cons p rest ih =>
      rw [List.cons_append, dictGet_cons, dictGet_cons]
      by_cases hp' : p.1 = k'
      · rw [if_pos hp', if_pos hp']
      · rw [if_neg hp', if_neg hp']
        refine ih ?_
        intro hrest
        refine hany ?_
        simp only [List.any_cons]
        rw [Bool.or_eq_true_iff]
        right
        exact hrest

/-! ### Archive parser lemmas -/

theorem parseMembers_nil (tar : List TarMember) (acc : PyDict ParsedContent) :
    parseMembers tar acc [] = .ok acc := rfl

theorem parseMembers_cons_none (tar : List TarMember) (acc : PyDict ParsedContent)
    (m : TarMember) (rest : List TarMember)
    (h : revisionParsers (basename m.name) = none) :
    parseMembers tar acc (m :: rest) = parseMembers tar acc rest := by
  conv_lhs => unfold parseMembers
  rw [h]

theorem parseMembers_cons_some (tar : List TarMember) (acc : PyDict ParsedContent)
    (m : TarMember) (rest : List TarMember)
    (pf : Option String → Except String ParsedContent)
    (h : revisionParsers (basename m.name) = some pf) :
    parseMembers tar acc (m :: rest) =
      match pf (extractfile tar m.name) with
      | .error e => .error e
      | .ok v => parseMembers tar (dictSet acc (basename m.name) v) rest := by
  conv_lhs => unfold parseMembers
  rw [h]

theorem revisionParsers_eq_none_iff (n : String) :
    revisionParsers n = none ↔ n ∉ parserNames := by
  unfold revisionParsers parserNames
  split_ifs with h1 h2 h3 h4 h5 <;> simp_all

theorem parseMembers_all_skip (tar : List TarMember) (acc : PyDict ParsedContent) :
    ∀ l : List TarMember, (∀ m ∈ l, revisionParsers (basename m.name) = none) →
      parseMembers tar acc l = .ok acc := by
  intro l
  induction l with
  | nil => intro _; rfl
  | cons m rest ih =>
    intro h
    rw [parseMembers_cons_none tar acc m rest (h m (by simp))]
    exact ih fun x hx => h x (by simp [hx])

theorem parseMembers_skip (tar : List TarMember) (m : TarMember)
    (hm : revisionParsers (basename m.name) = none) :
    ∀ (l1 l2 : List TarMember) (acc : PyDict ParsedContent),
      parseMembers tar acc (l1 ++ m :: l2) = parseMembers tar acc (l1 ++ l2) := by
  intro l1
  induction l1 with
  | nil =>
    intro l2 acc
    rw [List.nil_append, List.nil_append, parseMembers_cons_none tar acc m l2 hm]
  | cons x rest ih =>
    intro l2 acc
    rw [List.cons_append, List.cons_append]
    cases hx : revisionParsers (basename x.name) with
    | none =>
      rw [parseMembers_cons_none tar acc x _ hx, parseMembers_cons_none tar acc x _ hx]
      exact ih l2 acc
    | some pf =>
      rw [parseMembers_cons_some tar acc x _ pf hx, parseMembers_cons_some tar acc x _ pf hx]
      cases hres : pf (extractfile tar x.name) with
      | error e => rfl
      | ok v => exact ih l2 (dictSet acc (basename x.name) v)

theorem parseMembers_congr (tar1 tar2 : List TarMember) :
    ∀ (l : List TarMember) (acc : PyDict ParsedContent),
      (∀ x ∈ l, revisionParsers (basename x.name) ≠ none →
        extractfile tar1 x.name = extractfile tar2 x.name) →
      parseMembers tar1 acc l = parseMembers tar2 acc l := by
  intro l
  induction l with
  | nil => intro acc _; rfl
  | cons x rest ih =>
    intro acc h
    cases hx : revisionParsers (basename x.name) with
    | none =>
      rw [parseMembers_cons_none tar1 acc x _ hx, parseMembers_cons_none tar2 acc x _ hx]
      exact ih acc fun y hy => h y (by simp [hy])
    | some pf =>
      rw [parseMembers_cons_some tar1 acc x _ pf hx, parseMembers_cons_some tar2 acc x _ pf hx]
      rw [h x (by simp) (by rw [hx]; exact fun hh => Option.noConfusion hh)]
      cases hres : pf (extractfile tar2 x.name) with
      | error e => rfl
      | ok v => exact ih (dictSet acc (basename x.name) v) fun y hy => h y (by simp [hy])

theorem extractfile_middle (l1 l2 : List TarMember) (m : TarMember) (nm : String)
    (h : m.name ≠ nm) :
    extractfile (l1 ++ m :: l2) nm = extractfile (l1 ++ l2) nm := by
  unfold extractfile
  have hf : (l1 ++ m :: l2).filter (fun x => x.name == nm) =
      (l1 ++ l2).filter (fun x => x.name == nm) := by
    rw [List.filter_append, List.filter_append, List.filter_cons_of_neg]
    simp [h]
  rw [hf]

/-- Skipping an unrecognised member: it is neither iterated usefully nor can
it shadow a recognised member in `extractfile` (same full name would mean
same basename). -/
theorem parse_revision_tar_skip_unrecognised (l1 l2 : List TarMember)
    (m : TarMember) (hm : basename m.name ∉ parserNames) :
    parse_revision_tar (l1 ++ m :: l2) = parse_revision_tar (l1 ++ l2) := by
  have hm' : revisionParsers (basename m.name) = none :=
    (revisionParsers_eq_none_iff _).mpr hm
  unfold parse_revision_tar
  rw [parseMembers_skip _ m hm' l1 l2 []]
  exact parseMembers_congr _ _ (l1 ++ l2) [] fun x hx hrec => by
    refine extractfile_middle l1 l2 m x.name ?_
    intro hname
    rw [hname] at hm'
    exact hrec hm'

/-! ### The last member with a given basename (duplicate entries) -/

theorem mem_of_getLast?_eq_some {α : Type} {l : List α} {a : α}
    (h : l.getLast? = some a) : a ∈ l := by
  induction l using List.reverseRecOn with
  | nil => simp at h
  | append_singleton l' x _ih =>
    rw [List.getLast?_concat] at h
    rw [Option.some.injEq] at h
    subst h
    simp

theorem getLast?_cons_of_ne_nil {α : Type} (x : α) (l : List α) (h : l ≠ []) :
    (x :: l).getLast? = l.getLast? := by
  cases l with
  | nil => exact absurd rfl h
  | cons y rest => rw [List.getLast?_cons_cons]

theorem lastWith_eq_none_iff (nm : String) (l : List TarMember) :
    lastWith nm l = none ↔ ∀ m ∈ l, basename m.name ≠ nm := by
  unfold lastWith
  rw [List.getLast?_eq_none_iff, List.filter_eq_nil_iff]
  simp

theorem lastWith_basename {nm : String} {l : List TarMember} {m : TarMember}
    (h : lastWith nm l = some m) : basename m.name = nm := by
  unfold lastWith at h
  have hm := mem_of_getLast?_eq_some h
  rw [List.mem_filter] at hm
  simpa using hm.2

theorem lastWith_mem {nm : String} {l : List TarMember} {m : TarMember}
    (h : lastWith nm l = some m) : m ∈ l := by
  unfold lastWith at h
  have hm := mem_of_getLast?_eq_some h
  exact (List.mem_filter.mp hm).1

/-- Unfolding equation for `lastWith` on a front element. -/
theorem lastWith_cons (nm : String) (m : TarMember) (rest : List TarMember) :
    lastWith nm (m :: rest) =
      match lastWith nm rest with
      | some x => some x
      | none => if basename m.name = nm then some m else none := by
  unfold lastWith
  rw [List.filter_cons]
  by_cases hm : basename m.name = nm
  · rw [if_pos (by simp [hm])]
    cases hfr : (rest.filter fun z => basename z.name == nm).getLast? with
    | some x =>
      rw [getLast?_cons_of_ne_nil _ _ (by intro hnil; rw [hnil] at hfr; simp at hfr), hfr]
    | none =>
      rw [List.getLast?_eq_none_iff.mp hfr, List.getLast?_singleton, if_pos hm]
  · rw [if_neg (by simp [hm])]
    cases hfr : (rest.filter fun z => basename z.name == nm).getLast? with
    | some x => rfl
    | none => rw [if_neg hm]

/-- The latest member with basename `nm` is also the latest member carrying
its own full name, so `extractfile` returns its own content. -/
theorem extractfile_lastWith {nm : String} :
    ∀ {l : List TarMember} {m : TarMember}, lastWith nm l = some m →
      extractfile l m.name = m.content := by
  intro l
  induction l using List.reverseRecOn with
  | nil => intro m h; simp [lastWith] at h
  | append_singleton l' x ih =>
    intro m h
    unfold lastWith at h
    rw [List.filter_append, List.filter_cons] at h
    by_cases hx : basename x.name = nm
    · rw [if_pos (by simp [hx])] at h
      simp only [List.filter_nil] at h
      rw [List.getLast?_concat] at h
      rw [Option.some.injEq] at h
      subst h
      unfold extractfile
      rw [List.filter_append, List.filter_cons, if_pos (by simp), List.filter_nil,
        List.getLast?_concat]
    · rw [if_neg (by simp [hx]), List.filter_nil, List.append_nil] at h
      have hbm : basename m.name = nm := lastWith_basename h
      have hxm : x.name ≠ m.name := by
        intro hh
        rw [← hh] at hbm
        exact hx hbm
      have hex := ih h
      unfold extractfile at hex ⊢
      rw [List.filter_append, List.filter_cons, if_neg (by simp [hxm]), List.filter_nil,
        List.append_nil]
      exact hex


/-- Invariant of the member loop: for a recognised name, the output value is
determined by the latest iterated member with that basename (or left as in
the accumulator). -/
theorem parseMembers_dictGet (tar : List TarMember) :
    ∀ (l : List TarMember) (acc out : PyDict ParsedContent) (nm : String)
      (pf : Option String → Except String ParsedContent),
      revisionParsers nm = some pf →
      parseMembers tar acc l = .ok out →
      dictGet out nm =
        match lastWith nm l with
        | some m => (pf (extractfile tar m.name)).toOption
        | none => dictGet acc nm := by
  intro l
  induction l with
  | nil =>
    intro acc out nm pf _hpf hp
    rw [parseMembers_nil] at hp
    rw [Except.ok.injEq] at hp
    subst hp
    exact rfl
  | cons x rest ih =>
    intro acc out nm pf hpf hp
    cases hx : revisionParsers (basename x.name) with
    | none =>
      rw [parseMembers_cons_none tar acc x rest hx] at hp
      have hres := ih acc out nm pf hpf hp
      cases hlw : lastWith nm rest with
      | some y =>
        rw [hlw] at hres
        rw [lastWith_cons, hlw]
        exact hres
      | none =>
        rw [hlw] at hres
        rw [lastWith_cons, hlw]
        by_cases hbx : basename x.name = nm
        · rw [hbx] at hx
          rw [hx] at hpf
          cases hpf
        · rw [if_neg hbx]
          exact hres
    | some pf0 =>
      rw [parseMembers_cons_some tar acc x rest pf0 hx] at hp
      cases hres0 : pf0 (extractfile tar x.name) with
      | error e =>
        rw [hres0] at hp
        simp at hp
      | ok v =>
        rw [hres0] at hp
        have hp' : parseMembers tar (dictSet acc (basename x.name) v) rest = .ok out := hp
        have hres := ih (dictSet acc (basename x.name) v) out nm pf hpf hp'
        cases hlw : lastWith nm rest with
        | some y =>
          rw [hlw] at hres
          rw [lastWith_cons, hlw]
          exact hres
        | none =>
          rw [hlw] at hres
          have hres' : dictGet out nm = dictGet (dictSet acc (basename x.name) v) nm := hres
          rw [lastWith_cons, hlw]
          by_cases hbx : basename x.name = nm
          · rw [if_pos hbx]
            rw [hbx] at hx
            rw [hx, Option.some.injEq] at hpf
            subst hpf
            rw [hbx] at hres'
            rw [dictGet_dictSet_self] at hres'
            rw [hres']
            show some v = (pf0 (extractfile tar x.name)).toOption
            rw [hres0]
            rfl
          · rw [if_neg hbx]
            rw [dictGet_dictSet_other _ _ _ _ (fun hh => hbx hh.symm)] at hres'
            exact hres'


theorem parse_dockerfile_some_eq (content : String) :
    parse_dockerfile (some content) =
      match pySplitlines content with
      | [] => .error "IndexError: list index out of range"
      | line0 :: _ =>
        .ok (some ⟨pyStrip fromChars line0, pySliceTwoToMinusTwo (pySplitlines content)⟩) := rfl

theorem parse_revision_tar_single_dockerfile (content : String) (d : Option DockerInfo)
    (h : parse_dockerfile (some content) = .ok d) :
    parse_revision_tar [⟨"Dockerfile", some content⟩] = .ok [("Dockerfile", .docker d)] := by
  have h2 : (parse_dockerfile (some content)).map ParsedContent.docker
      = .ok (ParsedContent.docker d) := by rw [h]; rfl
  unfold parse_revision_tar
  rw [parseMembers_cons_some _ _ _ _ _
    (rfl : revisionParsers (basename (TarMember.mk "Dockerfile" (some content)).name)
      = some (fun c => (parse_dockerfile c).map ParsedContent.docker))]
  have goal2 : (match (parse_dockerfile (some content)).map ParsedContent.docker with
      | .error e => .error e
      | .ok v => parseMembers [TarMember.mk "Dockerfile" (some content)]
          (dictSet [] (basename (TarMember.mk "Dockerfile" (some content)).name) v) [])
      = Except.ok [("Dockerfile", ParsedContent.docker d)] := by
    rw [h2]
    rfl
  exact goal2


theorem pySplitlines_joinLines :
    ∀ ls : List String, (∀ l ∈ ls, noEol l) → pySplitlines (joinLines ls) = ls := by
  intro ls
  induction ls with
  | nil => intro _; rfl
  | cons l rest ih =>
    intro h
    show pySplitlines (l ++ "\n" ++ joinLines rest) = l :: rest
    rw [pySplitlines_line _ _ (h l (by simp))]
    rw [ih fun x hx => h x (by simp [hx])]

/-- C8: a recognised script entry parses to its decoded text split into
lines, terminators removed; in particular a `preRunScript.sh` entry holding
`"echo a\necho b\n"` parses to `["echo a", "echo b"]`. -/
theorem c8_test : (∀ ls : List String, (∀ l ∈ ls, noEol l) →
      parse_plain_text (some (joinLines ls)) = ls) ∧
    parse_revision_tar [⟨"preRunScript.sh", some "echo a\necho b\n"⟩]
      = .ok [("preRunScript.sh", .text ["echo a", "echo b"])] :=
  ⟨fun ls h => pySplitlines_joinLines ls h, rfl⟩

theorem c8_test_witness :
    (∀ l ∈ ["echo a", "echo b"], noEol l) ∧
      parse_plain_text (some (joinLines ["echo a", "echo b"])) = ["echo a", "echo b"] :=
  ⟨by decide, c8_test.1 ["echo a", "echo b"] (by decide)⟩

/-- C1: a tar archive whose `Dockerfile` entry holds the six lines
`FROM ubuntu:18.04`, a wrapper line, `RUN foo`, `RUN bar`, and two wrapper
lines parses to `base_image = "ubuntu:18.04"` and
`instructions = ["RUN foo", "RUN bar"]`. -/
theorem c1_test (w1 w2 w3 : String) (h1 : noEol w1) (h2 : noEol w2) (h3 : noEol w3)
    (hne : w3 ≠ "") :
    parse_revision_tar [⟨"Dockerfile",
      some ("FROM ubuntu:18.04" ++ "\n" ++ (w1 ++ "\n" ++ ("RUN foo" ++ "\n" ++
        ("RUN bar" ++ "\n" ++ (w2 ++ "\n" ++ w3)))))⟩] =
    .ok [("Dockerfile",
      .docker (some (DockerInfo.mk "ubuntu:18.04" ["RUN foo", "RUN bar"])))] := by
  apply parse_revision_tar_single_dockerfile
  rw [parse_dockerfile_some_eq]
  rw [pySplitlines_line _ _ (by decide), pySplitlines_line _ _ h1,
    pySplitlines_line _ _ (by decide), pySplitlines_line _ _ (by decide),
    pySplitlines_line _ _ h2, pySplitlines_last _ h3 hne]
  rfl

theorem c1_test_witness :
    noEol "# w1" ∧ noEol "# w2" ∧ noEol "# w3" ∧ "# w3" ≠ "" ∧
    parse_revision_tar [⟨"Dockerfile",
      some ("FROM ubuntu:18.04" ++ "\n" ++ ("# w1" ++ "\n" ++ ("RUN foo" ++ "\n" ++
        ("RUN bar" ++ "\n" ++ ("# w2" ++ "\n" ++ "# w3")))))⟩] =
    .ok [("Dockerfile",
      .docker (some (DockerInfo.mk "ubuntu:18.04" ["RUN foo", "RUN bar"])))] :=
  ⟨by decide, by decide, by decide, by decide,
    c1_test "# w1" "# w2" "# w3" (by decide) (by decide) (by decide) (by decide)⟩


/-- C2 code bug: `str.strip("FROM ")` removes a character SET from both
ends, so an image reference beginning with one of `F R O M space` loses
characters: `"FROM MyImage"` yields `"yImage"`, not `"MyImage"`. -/
theorem c2_strip_bug :
    parse_dockerfile (some "FROM MyImage\nWRAP\nRUN a\nRUN b\nWRAP\nWRAP")
      = .ok (some (DockerInfo.mk "yImage" ["RUN a", "RUN b"])) ∧
    "yImage" ≠ "MyImage" := ⟨rfl, by decide⟩

/-- C3 counterexample: on empty content, `lines[0]` raises `IndexError`. -/
theorem c3_counterexample :
    parse_dockerfile (some "") = .error "IndexError: list index out of range" := rfl

/-- C3 amended: `parse_dockerfile` completes without raising on every input
except readable empty content. -/
theorem c3_amended (fo : Option String) (h : fo ≠ some "") :
    ∃ r, parse_dockerfile fo = .ok r := by
  cases fo with
  | none => exact ⟨none, rfl⟩
  | some c =>
    have hc : c ≠ "" := fun hh => h (by rw [hh])
    have hne : pySplitlines c ≠ [] :=
      splitlinesAux_ne_nil c.data []
        (Or.inl fun hh => hc (data_eq_nil.mp hh))
    cases hl : pySplitlines c with
    | nil => exact absurd hl hne
    | cons l0 ls =>
      refine ⟨some ⟨pyStrip fromChars l0, pySliceTwoToMinusTwo (l0 :: ls)⟩, ?_⟩
      rw [parse_dockerfile_some_eq, hl]

theorem c3_amended_witness :
    (some "FROM x" : Option String) ≠ some "" ∧
      ∃ r, parse_dockerfile (some "FROM x") = .ok r :=
  ⟨by decide, c3_amended (some "FROM x") (by decide)⟩

/-- C7: unrecognised entries are skipped without error and contribute no
key; an archive with no recognised entries parses to the empty mapping. -/
theorem c7_unrecognised_skipped :
    (∀ (ms1 ms2 : List TarMember) (m : TarMember), basename m.name ∉ parserNames →
      parse_revision_tar (ms1 ++ m :: ms2) = parse_revision_tar (ms1 ++ ms2)) ∧
    (∀ ms : List TarMember, (∀ m ∈ ms, basename m.name ∉ parserNames) →
      parse_revision_tar ms = .ok []) :=
  ⟨fun ms1 ms2 m hm => parse_revision_tar_skip_unrecognised ms1 ms2 m hm,
   fun ms h => parseMembers_all_skip ms [] ms
     (fun m hm => (revisionParsers_eq_none_iff _).mpr (h m hm))⟩

theorem c7_unrecognised_skipped_witness :
    basename "junk.txt" ∉ parserNames ∧
    parse_revision_tar ([] ++ TarMember.mk "junk.txt" (some "zzz") :: []) =
      parse_revision_tar ([] ++ []) ∧
    parse_revision_tar [TarMember.mk "junk.txt" (some "zzz")] = .ok [] :=
  ⟨by decide,
   c7_unrecognised_skipped.1 [] [] (TarMember.mk "junk.txt" (some "zzz")) (by decide),
   c7_unrecognised_skipped.2 [TarMember.mk "junk.txt" (some "zzz")]
     (by intro m hm; rw [List.mem_singleton] at hm; rw [hm]; decide)⟩

/-- C10: with several entries of the same recognised basename, the output
maps that name to the parsed content of the entry occurring latest in the
archive's member order. -/
theorem c10_last_duplicate_wins (ms1 ms2 ms3 : List TarMember) (m1 m2 : TarMember)
    (nm : String) (pf : Option String → Except String ParsedContent)
    (out : PyDict ParsedContent)
    (h1 : basename m1.name = nm) (h2 : basename m2.name = nm)
    (h3 : ∀ x ∈ ms3, basename x.name ≠ nm)
    (hpf : revisionParsers nm = some pf)
    (hok : parse_revision_tar (ms1 ++ m1 :: (ms2 ++ m2 :: ms3)) = .ok out) :
    dictGet out nm = (pf m2.content).toOption := by
  have hlast : lastWith nm (ms1 ++ m1 :: (ms2 ++ m2 :: ms3)) = some m2 := by
    unfold lastWith
    rw [List.filter_append, List.filter_cons, if_pos (by simp [h1]),
      List.filter_append, List.filter_cons, if_pos (by simp [h2])]
    have hnil : ms3.filter (fun z => basename z.name == nm) = [] := by
      rw [List.filter_eq_nil_iff]
      intro z hz
      simp [h3 z hz]
    rw [hnil]
    rw [List.getLast?_append_of_ne_nil _ (by simp)]
    rw [getLast?_cons_of_ne_nil _ _ (by simp)]
    rw [List.getLast?_append_of_ne_nil _ (by simp)]
    rw [List.getLast?_singleton]
  have hinv := parseMembers_dictGet (ms1 ++ m1 :: (ms2 ++ m2 :: ms3))
    (ms1 ++ m1 :: (ms2 ++ m2 :: ms3)) [] out nm pf hpf hok
  rw [hlast] at hinv
  have h' : dictGet out nm =
      (pf (extractfile (ms1 ++ m1 :: (ms2 ++ m2 :: ms3)) m2.name)).toOption := hinv
  rw [extractfile_lastWith hlast] at h'
  exact h'

theorem c10_last_duplicate_wins_witness :
    basename "a/preRunScript.sh" = "preRunScript.sh" ∧
    basename "b/preRunScript.sh" = "preRunScript.sh" ∧
    revisionParsers "preRunScript.sh"
      = some (fun c => .ok (ParsedContent.text (parse_plain_text c))) ∧
    parse_revision_tar ([] ++ TarMember.mk "a/preRunScript.sh" (some "echo a\n") ::
        ([] ++ TarMember.mk "b/preRunScript.sh" (some "echo b\n") :: [])) =
      .ok [("preRunScript.sh", ParsedContent.text ["echo b"])] ∧
    dictGet [("preRunScript.sh", ParsedContent.text ["echo b"])] "preRunScript.sh" =
      ((fun c => .ok (ParsedContent.text (parse_plain_text c)))
        (TarMember.mk "b/preRunScript.sh" (some "echo b\n")).content
        : Except String ParsedContent).toOption :=
  ⟨rfl, rfl, rfl, rfl,
   c10_last_duplicate_wins [] [] [] (TarMember.mk "a/preRunScript.sh" (some "echo a\n"))
     (TarMember.mk "b/preRunScript.sh" (some "echo b\n")) "preRunScript.sh"
     (fun c => .ok (ParsedContent.text (parse_plain_text c)))
     [("preRunScript.sh", ParsedContent.text ["echo b"])]
     rfl rfl (by intro x hx; cases hx) rfl rfl⟩


/-- C5: supplying multi-line fields as line sequences gives the same payload
as supplying the newline-joined strings. -/
theorem c5_normalisation (dfltRev dfltImg : String) (a : RevisionArgs)
    (l1 l2 l3 l4 l5 l6 l7 : List String) :
    createRevisionFormPayload dfltRev dfltImg
      { a with dockerfile_instructions := .lines l1, workspace_tools := .lines l2,
               pre_run_script := .lines l3, post_run_script := .lines l4,
               pre_setup_script := .lines l5, post_setup_script := .lines l6,
               docker_arguments := .lines l7 } =
    createRevisionFormPayload dfltRev dfltImg
      { a with dockerfile_instructions := .str (String.intercalate "\n" l1),
               workspace_tools := .str (String.intercalate "\n" l2),
               pre_run_script := .str (String.intercalate "\n" l3),
               post_run_script := .str (String.intercalate "\n" l4),
               pre_setup_script := .str (String.intercalate "\n" l5),
               post_setup_script := .str (String.intercalate "\n" l6),
               docker_arguments := .str (String.intercalate "\n" l7) } := rfl

/-- C9: constructing the manager with neither an API key nor a token file
(parameter or environment variable) raises a configuration error with no
request manager created and no request issued. -/
theorem c9_missing_auth (e : InitEnv)
    (hk : pyOr e.api_key_param e.env_api_key = none)
    (ht : pyOr e.token_file_param e.env_token_file = none) :
    (managerInit e).1 = [] ∧ (∃ msg, (managerInit e).2 = .error msg) ∧
    (∀ h, pyOr e.host_param e.env_host = some h → h ≠ "" →
      (managerInit e).2 = .error ("Either api_key or path_to_domino_token_file " ++
        "must be provided via class constructor or environment variable")) := by
  unfold managerInit
  cases hh : pyOr e.host_param e.env_host with
  | none => exact ⟨rfl, ⟨_, rfl⟩, fun h hsome => by cases hsome⟩
  | some h =>
    dsimp only
    by_cases hhe : h = ""
    · rw [if_pos hhe]
      exact ⟨rfl, ⟨_, rfl⟩, fun h' hsome hne => by
        rw [Option.some.injEq] at hsome; rw [← hsome] at hne; exact absurd hhe hne⟩
    · rw [if_neg hhe]
      rw [ht, hk]
      exact ⟨rfl, ⟨_, rfl⟩, fun h' _ _ => rfl⟩

theorem c9_missing_auth_witness :
    pyOr none none = none ∧ pyOr none none = none ∧
    ((managerInit (InitEnv.mk (some "https://dom.example") none none none none none)).1 = []
      ∧ (∃ msg, (managerInit
          (InitEnv.mk (some "https://dom.example") none none none none none)).2
            = .error msg)) := by
  refine ⟨rfl, rfl, ?_⟩
  have h := c9_missing_auth (InitEnv.mk (some "https://dom.example") none none none none none)
    rfl rfl
  exact ⟨h.1, h.2.1⟩

/-! ### Decimal rendering lemmas -/

theorem decCharsAux_irrel :
    ∀ (n f f' : Nat), n < f → n < f' → decCharsAux f n = decCharsAux f' n := by
  intro n
  induction n using Nat.strong_induction_on with
  | _ n ih =>
    intro f f' hf hf'
    cases f with
    | zero => omega
    | succ f0 =>
      cases f' with
      | zero => omega
      | succ f0' =>
        unfold decCharsAux
        by_cases h10 : n < 10
        · rw [if_pos h10, if_pos h10]
        · rw [if_neg h10, if_neg h10]
          have hlt : n / 10 < n := Nat.div_lt_self (by omega) (by omega)
          rw [ih (n / 10) hlt f0 f0' (by omega) (by omega)]

theorem decChars_eq (n : Nat) :
    decChars n = if n < 10 then [decDigit n]
      else decChars (n / 10) ++ [decDigit (n % 10)] := by
  unfold decChars
  by_cases h10 : n < 10
  · rw [if_pos h10]
    unfold decCharsAux
    rw [if_pos h10]
  · rw [if_neg h10]
    conv_lhs => unfold decCharsAux
    rw [if_neg h10]
    have hlt : n / 10 < n := Nat.div_lt_self (by omega) (by omega)
    rw [decCharsAux_irrel (n / 10) n (n / 10 + 1) (by omega) (by omega)]

theorem decChars_ne_nil (n : Nat) : decChars n ≠ [] := by
  rw [decChars_eq]
  by_cases h10 : n < 10
  · rw [if_pos h10]; simp
  · rw [if_neg h10]; simp

theorem decDigit_isDigit (d : Nat) : (decDigit d).isDigit = true := by
  rcases d with _|_|_|_|_|_|_|_|_|d <;> rfl

theorem decDigit_inj_lt : ∀ d < 10, ∀ e < 10, decDigit d = decDigit e → d = e := by decide

theorem decChars_isDigit :
    ∀ n : Nat, ∀ c ∈ decChars n, c.isDigit = true := by
  intro n
  induction n using Nat.strong_induction_on with
  | _ n ih =>
    intro c hc
    rw [decChars_eq] at hc
    by_cases h10 : n < 10
    · rw [if_pos h10] at hc
      rw [List.mem_singleton] at hc
      rw [hc]; exact decDigit_isDigit n
    · rw [if_neg h10] at hc
      rw [List.mem_append] at hc
      rcases hc with hc | hc
      · exact ih (n / 10) (Nat.div_lt_self (by omega) (by omega)) c hc
      · rw [List.mem_singleton] at hc
        rw [hc]; exact decDigit_isDigit (n % 10)

theorem decChars_inj : ∀ a b : Nat, decChars a = decChars b → a = b := by
  intro a
  induction a using Nat.strong_induction_on with
  | _ a ih =>
    intro b hab
    rw [decChars_eq a, decChars_eq b] at hab
    by_cases ha : a < 10 <;> by_cases hb : b < 10
    · rw [if_pos ha, if_pos hb] at hab
      rw [List.cons.injEq] at hab
      exact decDigit_inj_lt a ha b hb hab.1
    · rw [if_pos ha, if_neg hb] at hab
      have := congrArg List.length hab
      simp at this
      have h2 := decChars_ne_nil (b / 10)
      cases hdc : decChars (b / 10) with
      | nil => exact absurd hdc h2
      | cons x xs => rw [hdc] at this; simp at this
    · rw [if_neg ha, if_pos hb] at hab
      have := congrArg List.length hab
      simp at this
      have h2 := decChars_ne_nil (a / 10)
      cases hdc : decChars (a / 10) with
      | nil => exact absurd hdc h2
      | cons x xs => rw [hdc] at this; simp at this
    · rw [if_neg ha, if_neg hb] at hab
      have hparts := List.append_inj' hab (by rfl)
      have hdiv : a / 10 = b / 10 :=
        ih (a / 10) (Nat.div_lt_self (by omega) (by omega)) (b / 10) hparts.1
      have hmod : a % 10 = b % 10 := by
        have := hparts.2
        rw [List.cons.injEq] at this
        exact decDigit_inj_lt (a % 10) (Nat.mod_lt a (by omega)) (b % 10)
          (Nat.mod_lt b (by omega)) this.1
      omega

/-- Splitting digit-prefixed lists at the first non-digit character. -/
theorem digit_prefix_split :
    ∀ (a b : List Char) (x y : Char) (u v : List Char),
      (∀ c ∈ a, c.isDigit = true) → (∀ c ∈ b, c.isDigit = true) →
      x.isDigit = false → y.isDigit = false →
      a ++ x :: u = b ++ y :: v → a = b ∧ x = y ∧ u = v := by
  intro a
  induction a with
  | nil =>
    intro b x y u v _ hb hx _ heq
    cases b with
    | nil =>
      rw [List.nil_append, List.nil_append, List.cons.injEq] at heq
      exact ⟨rfl, heq.1, heq.2⟩
    | cons c b' =>
      rw [List.nil_append, List.cons_append, List.cons.injEq] at heq
      have : c.isDigit = true := hb c (by simp)
      rw [← heq.1] at this
      rw [hx] at this
      cases this
  | cons c a' ih =>
    intro b x y u v ha hb hx hy heq
    cases b with
    | nil =>
      rw [List.nil_append, List.cons_append, List.cons.injEq] at heq
      have : c.isDigit = true := ha c (by simp)
      rw [heq.1] at this
      rw [hy] at this
      cases this
    | cons d b' =>
      rw [List.cons_append, List.cons_append, List.cons.injEq] at heq
      obtain ⟨h1, h2, h3⟩ := ih b' x y u v (fun z hz => ha z (by simp [hz]))
        (fun z hz => hb z (by simp [hz])) hx hy heq.2
      exact ⟨by rw [heq.1, h1], h2, h3⟩

/-! ### Environment-variable key lemmas -/

theorem envVarKey_data (i : Nat) (s : String) :
    (envVarKey i s).data =
      "buildEnvironmentVariables[".data ++ (decChars i ++ s.data) := by
  unfold envVarKey pyStr
  rw [data_append, data_append, List.append_assoc]

theorem envVarKey_inj {i j : Nat} {s t : String} {cs ct : Char} {us ut : List Char}
    (hs : s.data = cs :: us) (hcs : cs.isDigit = false)
    (ht : t.data = ct :: ut) (hct : ct.isDigit = false)
    (h : envVarKey i s = envVarKey j t) : i = j ∧ s = t := by
  have hd := congrArg String.data h
  rw [envVarKey_data, envVarKey_data, hs, ht] at hd
  have hd2 := List.append_cancel_left hd
  obtain ⟨h1, h2, h3⟩ := digit_prefix_split (decChars i) (decChars j) cs ct us ut
    (decChars_isDigit i) (decChars_isDigit j) hcs hct hd2
  refine ⟨decChars_inj i j h1, data_injective ?_⟩
  rw [hs, ht, h2, h3]

theorem name_suffix_data : ("].name" : String).data
    = ']' :: (".name" : String).data := rfl

theorem value_suffix_data : ("].value" : String).data
    = ']' :: (".value" : String).data := rfl

theorem rbracket_not_digit : (']' : Char).isDigit = false := rfl

theorem envVarKey_name_inj {i j : Nat}
    (h : envVarKey i "].name" = envVarKey j "].name") : i = j :=
  (envVarKey_inj name_suffix_data rbracket_not_digit name_suffix_data
    rbracket_not_digit h).1

theorem envVarKey_value_inj {i j : Nat}
    (h : envVarKey i "].value" = envVarKey j "].value") : i = j :=
  (envVarKey_inj value_suffix_data rbracket_not_digit value_suffix_data
    rbracket_not_digit h).1

theorem envVarKey_name_ne_value (i j : Nat) :
    envVarKey i "].name" ≠ envVarKey j "].value" := by
  intro h
  have := (envVarKey_inj name_suffix_data rbracket_not_digit value_suffix_data
    rbracket_not_digit h).2
  have hd := congrArg String.data this
  rw [name_suffix_data, value_suffix_data] at hd
  rw [List.cons.injEq] at hd
  have := hd.2
  simp at this

theorem isEnvKey_envVarKey (i : Nat) (s : String) :
    isEnvKey (envVarKey i s) = true := by
  unfold isEnvKey
  rw [envVarKey_data]
  rw [List.isPrefixOf_iff_prefix]
  exact List.prefix_append _ _

theorem ne_of_isEnvKey {k k' : String} (h : isEnvKey k = false)
    (h' : isEnvKey k' = true) : k ≠ k' := by
  intro he
  rw [he, h'] at h
  cases h

theorem keyBelow_ne_name {i : Nat} {k : String} (h : keyBelow i k) :
    k ≠ envVarKey i "].name" := by
  rcases h with h | ⟨j, hj, hk | hk⟩
  · exact ne_of_isEnvKey h (isEnvKey_envVarKey i "].name")
  · intro he
    rw [hk] at he
    exact absurd (envVarKey_name_inj he) (by omega)
  · intro he
    rw [hk] at he
    exact envVarKey_name_ne_value i j he.symm

theorem keyBelow_ne_value {i : Nat} {k : String} (h : keyBelow i k) :
    k ≠ envVarKey i "].value" := by
  rcases h with h | ⟨j, hj, hk | hk⟩
  · exact ne_of_isEnvKey h (isEnvKey_envVarKey i "].value")
  · intro he
    rw [hk] at he
    exact envVarKey_name_ne_value j i he
  · intro he
    rw [hk] at he
    exact absurd (envVarKey_value_inj he) (by omega)

theorem keyBelow_mono {i : Nat} {k : String} (h : keyBelow i k) :
    keyBelow (i + 1) k := by
  rcases h with h | ⟨j, hj, hk⟩
  · exact Or.inl h
  · exact Or.inr ⟨j, by omega, hk⟩

theorem addEnvVars_eq_append :
    ∀ (vars : List (String × String)) (d : PyDict FormValue) (i : Nat),
      (∀ p ∈ d, keyBelow i p.1) → addEnvVars d i vars = d ++ envPairs i vars := by
  intro vars
  induction vars with
  | nil =>
    intro d i _
    unfold addEnvVars envPairs
    rw [List.append_nil]
  | cons kv rest ih =>
    obtain ⟨key, val⟩ := kv
    intro d i hbelow
    show addEnvVars (dictSet (dictSet d (envVarKey i "].name") (.str key))
      (envVarKey i "].value") (.str val)) (i + 1) rest = _
    rw [dictSet_append d _ _ (fun p hp => keyBelow_ne_name (hbelow p hp))]
    rw [dictSet_append _ _ _ ?fresh2]
    case fresh2 =>
      intro p hp
      rw [List.mem_append] at hp
      rcases hp with hp | hp
      · exact keyBelow_ne_value (hbelow p hp)
      · rw [List.mem_singleton] at hp
        rw [hp]
        exact envVarKey_name_ne_value i i
    rw [ih _ (i + 1) ?below2]
    case below2 =>
      intro p hp
      rw [List.append_assoc, List.mem_append] at hp
      rcases hp with hp | hp
      · exact keyBelow_mono (hbelow p hp)
      · simp only [List.cons_append, List.nil_append, List.mem_cons,
          List.mem_singleton] at hp
        rcases hp with hp | hp
        · exact Or.inr ⟨i, by omega, Or.inl (by rw [hp])⟩
        · rcases hp with hp | hp
          · exact Or.inr ⟨i, by omega, Or.inr (by rw [hp])⟩
          · cases hp
    show ((d ++ [(envVarKey i "].name", FormValue.str key)])
      ++ [(envVarKey i "].value", FormValue.str val)]) ++ envPairs (i + 1) rest
      = d ++ ((envVarKey i "].name", FormValue.str key) ::
        (envVarKey i "].value", FormValue.str val) :: envPairs (i + 1) rest)
    simp [List.append_assoc]

/-! ### Payload section lemmas -/

theorem envPairs_length : ∀ (vars : List (String × String)) (i : Nat),
    (envPairs i vars).length = 2 * vars.length := by
  intro vars
  induction vars with
  | nil => intro i; rfl
  | cons kv rest ih =>
    intro i
    obtain ⟨k, v⟩ := kv
    show ((envVarKey i "].name", FormValue.str k) ::
      (envVarKey i "].value", FormValue.str v) :: envPairs (i + 1) rest).length = _
    simp [ih (i + 1)]
    omega

theorem envPairs_keys : ∀ (vars : List (String × String)) (i : Nat)
    (p : String × FormValue), p ∈ envPairs i vars → isEnvKey p.1 = true := by
  intro vars
  induction vars with
  | nil => intro i p hp; cases hp
  | cons kv rest ih =>
    obtain ⟨k, v⟩ := kv
    intro i p hp
    have hp' : p ∈ (envVarKey i "].name", FormValue.str k) ::
        (envVarKey i "].value", FormValue.str v) :: envPairs (i + 1) rest := hp
    rcases List.mem_cons.mp hp' with rfl | hp2
    · exact isEnvKey_envVarKey i "].name"
    · rcases List.mem_cons.mp hp2 with rfl | hp3
      · exact isEnvKey_envVarKey i "].value"
      · exact ih (i + 1) p hp3

theorem envPairs_get : ∀ (vars : List (String × String)) (i j : Nat)
    (h : j < vars.length),
    dictGet (envPairs i vars) (envVarKey (i + j) "].name")
        = some (.str (vars.get ⟨j, h⟩).1) ∧
    dictGet (envPairs i vars) (envVarKey (i + j) "].value")
        = some (.str (vars.get ⟨j, h⟩).2) := by
  intro vars
  induction vars with
  | nil => intro i j h; simp at h
  | cons kv rest ih =>
    obtain ⟨k, v⟩ := kv
    intro i j h
    cases j with
    | zero =>
      constructor
      · show dictGet ((envVarKey i "].name", FormValue.str k) :: _) (envVarKey (i + 0) "].name") = _
        rw [dictGet_cons]
        rw [if_pos (by rw [Nat.add_zero])]
        rfl
      · show dictGet ((envVarKey i "].name", FormValue.str k) ::
          (envVarKey i "].value", FormValue.str v) :: envPairs (i + 1) rest)
            (envVarKey (i + 0) "].value") = _
        rw [dictGet_cons, if_neg (by rw [Nat.add_zero]; exact envVarKey_name_ne_value i i)]
        rw [dictGet_cons, if_pos (by rw [Nat.add_zero])]
        rfl
    | succ j0 =>
      have hj0 : j0 < rest.length := by
        have := h; simp at this; omega
      have hne1 : envVarKey i "].name" ≠ envVarKey (i + (j0 + 1)) "].name" := by
        intro he
        have := envVarKey_name_inj he
        omega
      have hne2 : envVarKey i "].value" ≠ envVarKey (i + (j0 + 1)) "].name" := by
        intro he
        exact envVarKey_name_ne_value (i + (j0 + 1)) i he.symm
      have hne3 : envVarKey i "].name" ≠ envVarKey (i + (j0 + 1)) "].value" :=
        envVarKey_name_ne_value i (i + (j0 + 1))
      have hne4 : envVarKey i "].value" ≠ envVarKey (i + (j0 + 1)) "].value" := by
        intro he
        have := envVarKey_value_inj he
        omega
      have harith : i + 1 + j0 = i + (j0 + 1) := by omega
      have hrec := ih (i + 1) j0 hj0
      rw [harith] at hrec
      constructor
      · show dictGet ((envVarKey i "].name", FormValue.str k) ::
          (envVarKey i "].value", FormValue.str v) :: envPairs (i + 1) rest)
            (envVarKey (i + (j0 + 1)) "].name") = _
        rw [dictGet_cons, if_neg hne1, dictGet_cons, if_neg hne2]
        exact hrec.1
      · show dictGet ((envVarKey i "].name", FormValue.str k) ::
          (envVarKey i "].value", FormValue.str v) :: envPairs (i + 1) rest)
            (envVarKey (i + (j0 + 1)) "].value") = _
        rw [dictGet_cons, if_neg hne3, dictGet_cons, if_neg hne4]
        exact hrec.2

theorem basePairs_key_mem (dfltRev dfltImg : String) (a : RevisionArgs)
    (p : String × FormValue) (hp : p ∈ basePairs dfltRev dfltImg a) :
    p.1 ∈ baseKeys := by
  unfold basePairs at hp
  simp only [List.mem_cons, List.not_mem_nil, or_false] at hp
  rcases hp with rfl | rfl | rfl | rfl | rfl | rfl | rfl | rfl | rfl | rfl | rfl | rfl <;>
    simp [baseKeys]

theorem baseKeys_not_env : ∀ k ∈ baseKeys, isEnvKey k = false := by decide

theorem baseKeys_ne_flags : ∀ k ∈ baseKeys,
    k ≠ "noCache" ∧ k ≠ "shouldUseVPN" ∧ k ≠ "clusterTypes[]" := by decide

theorem envSection_eq (dfltRev dfltImg : String) (a : RevisionArgs) :
    envSection dfltRev dfltImg a =
      basePairs dfltRev dfltImg a ++ envPairs 0 (envItemsOf a) := by
  have hbelow : ∀ p ∈ basePairs dfltRev dfltImg a, keyBelow 0 p.1 := fun p hp =>
    Or.inl (baseKeys_not_env p.1 (basePairs_key_mem dfltRev dfltImg a p hp))
  unfold envSection envItemsOf
  cases hev : a.environment_variables with
  | none =>
    show basePairs dfltRev dfltImg a = basePairs dfltRev dfltImg a ++ envPairs 0 []
    rw [show envPairs 0 ([] : List (String × String)) = [] from rfl, List.append_nil]
  | some ev =>
    show (if (envItems ev).isEmpty then basePairs dfltRev dfltImg a
        else addEnvVars (basePairs dfltRev dfltImg a) 0 (envItems ev))
      = basePairs dfltRev dfltImg a ++ envPairs 0 (envItems ev)
    by_cases he : (envItems ev).isEmpty
    · rw [if_pos he]
      rw [List.isEmpty_iff] at he
      rw [he]
      rw [show envPairs 0 ([] : List (String × String)) = [] from rfl, List.append_nil]
    · rw [if_neg he]
      exact addEnvVars_eq_append (envItems ev) _ 0 hbelow

/-! ### Flag passthrough and filter lemmas -/

theorem dictGet_eq_none {V : Type} (d : PyDict V) (k : String)
    (h : ∀ p ∈ d, p.1 ≠ k) : dictGet d k = none := by
  unfold dictGet
  rw [List.find?_eq_none.mpr]
  · rfl
  · intro p hp
    simp [h p hp]

/-- The flag section of `create_revision` leaves every other key alone. -/
theorem dictGet_payload_of_ne_flags (dfltRev dfltImg : String) (a : RevisionArgs)
    (k : String) (h1 : k ≠ "noCache") (h2 : k ≠ "shouldUseVPN")
    (h3 : k ≠ "clusterTypes[]") :
    dictGet (createRevisionFormPayload dfltRev dfltImg a) k
      = dictGet (envSection dfltRev dfltImg a) k := by
  unfold createRevisionFormPayload
  have step2 : dictGet (if a.force_rebuild
        then dictSet (envSection dfltRev dfltImg a) "noCache" (.pybool true)
        else envSection dfltRev dfltImg a) k
      = dictGet (envSection dfltRev dfltImg a) k := by
    by_cases hf : a.force_rebuild
    · rw [if_pos hf, dictGet_dictSet_other _ _ _ _ h1]
    · rw [if_neg hf]
  have step3 : dictGet (if a.should_use_vpn
        then dictSet (if a.force_rebuild
          then dictSet (envSection dfltRev dfltImg a) "noCache" (.pybool true)
          else envSection dfltRev dfltImg a) "shouldUseVPN" (.str "on")
        else (if a.force_rebuild
          then dictSet (envSection dfltRev dfltImg a) "noCache" (.pybool true)
          else envSection dfltRev dfltImg a)) k
      = dictGet (envSection dfltRev dfltImg a) k := by
    by_cases hv : a.should_use_vpn
    · rw [if_pos hv, dictGet_dictSet_other _ _ _ _ h2]
      exact step2
    · rw [if_neg hv]
      exact step2
  cases hc : a.cluster_types with
  | none => exact step3
  | some ct =>
    by_cases hce : ct = ""
    · show dictGet (if ct = "" then _ else _) k = _
      rw [if_pos hce]
      exact step3
    · show dictGet (if ct = "" then _ else _) k = _
      rw [if_neg hce, dictGet_dictSet_other _ _ _ _ h3]
      exact step3

theorem filter_isEnvKey_dictSet (d : PyDict FormValue) (k : String) (v : FormValue)
    (hk : isEnvKey k = false) :
    (dictSet d k v).filter (fun q => isEnvKey q.1)
      = d.filter (fun q => isEnvKey q.1) := by
  unfold dictSet
  by_cases hany : (d.any fun p => p.1 == k) = true
  · rw [if_pos hany]
    clear hany
    induction d with
    | nil => rfl
    | cons p rest ih =>
      rw [List.map_cons, List.filter_cons, List.filter_cons]
      by_cases hp : p.1 = k
      · rw [if_pos (by simp [hp] : ((p.1 == k) = true))]
        rw [if_neg (by simp [hk] : ¬(isEnvKey (k, v).1 = true))]
        rw [if_neg (by simp [hp, hk] : ¬(isEnvKey p.1 = true))]
        exact ih
      · rw [if_neg (by simp [hp] : ¬((p.1 == k) = true))]
        by_cases hq : isEnvKey p.1 = true
        · rw [if_pos hq, if_pos hq, ih]
        · rw [if_neg hq, if_neg hq, ih]
  · rw [if_neg hany, List.filter_append]
    rw [show List.filter (fun q => isEnvKey q.1) [(k, v)] = [] by simp [hk]]
    rw [List.append_nil]

/-- The payload filtered to environment-variable keys is exactly the loop's
pair list. -/
theorem filter_isEnvKey_payload (dfltRev dfltImg : String) (a : RevisionArgs) :
    (createRevisionFormPayload dfltRev dfltImg a).filter (fun q => isEnvKey q.1)
      = envPairs 0 (envItemsOf a) := by
  have hsec : (envSection dfltRev dfltImg a).filter (fun q => isEnvKey q.1)
      = envPairs 0 (envItemsOf a) := by
    rw [envSection_eq, List.filter_append]
    rw [show (basePairs dfltRev dfltImg a).filter (fun q => isEnvKey q.1) = [] by
      rw [List.filter_eq_nil_iff]
      intro p hp
      simp [baseKeys_not_env p.1 (basePairs_key_mem dfltRev dfltImg a p hp)]]
    rw [List.nil_append]
    rw [List.filter_eq_self.mpr (fun p hp => by
      simp [envPairs_keys (envItemsOf a) 0 p hp])]
  have step2 : (if a.force_rebuild
        then dictSet (envSection dfltRev dfltImg a) "noCache" (.pybool true)
        else envSection dfltRev dfltImg a).filter (fun q => isEnvKey q.1)
      = envPairs 0 (envItemsOf a) := by
    by_cases hf : a.force_rebuild
    · rw [if_pos hf, filter_isEnvKey_dictSet _ _ _ (by decide)]
      exact hsec
    · rw [if_neg hf]
      exact hsec
  have step3 : (if a.should_use_vpn
        then dictSet (if a.force_rebuild
          then dictSet (envSection dfltRev dfltImg a) "noCache" (.pybool true)
          else envSection dfltRev dfltImg a) "shouldUseVPN" (.str "on")
        else (if a.force_rebuild
          then dictSet (envSection dfltRev dfltImg a) "noCache" (.pybool true)
          else envSection dfltRev dfltImg a)).filter (fun q => isEnvKey q.1)
      = envPairs 0 (envItemsOf a) := by
    by_cases hv : a.should_use_vpn
    · rw [if_pos hv, filter_isEnvKey_dictSet _ _ _ (by decide)]
      exact step2
    · rw [if_neg hv]
      exact step2
  unfold createRevisionFormPayload
  cases hc : a.cluster_types with
  | none => exact step3
  | some ct =>
    dsimp only
    by_cases hce : ct = ""
    · rw [if_pos hce]
      exact step3
    · rw [if_neg hce, filter_isEnvKey_dictSet _ _ _ (by decide)]
      exact step3


/-! ### Flag value lemmas -/

theorem envSection_no_flag_keys (dfltRev dfltImg : String) (a : RevisionArgs)
    (k : String) (hk : isEnvKey k = false)
    (hbase : ∀ b ∈ baseKeys, b ≠ k) :
    dictGet (envSection dfltRev dfltImg a) k = none := by
  rw [envSection_eq]
  refine dictGet_eq_none _ _ ?_
  intro p hp
  rw [List.mem_append] at hp
  rcases hp with hp | hp
  · exact hbase p.1 (basePairs_key_mem dfltRev dfltImg a p hp)
  · exact (ne_of_isEnvKey hk (envPairs_keys _ 0 p hp)).symm

theorem dictGet_payload_noCache (dfltRev dfltImg : String) (a : RevisionArgs) :
    dictGet (createRevisionFormPayload dfltRev dfltImg a) "noCache"
      = if a.force_rebuild then some (.pybool true) else none := by
  have hsec : dictGet (envSection dfltRev dfltImg a) "noCache" = none :=
    envSection_no_flag_keys dfltRev dfltImg a "noCache" (by decide) (by decide)
  have step2 : dictGet (if a.force_rebuild
        then dictSet (envSection dfltRev dfltImg a) "noCache" (.pybool true)
        else envSection dfltRev dfltImg a) "noCache"
      = if a.force_rebuild then some (.pybool true) else none := by
    by_cases hf : a.force_rebuild
    · rw [if_pos hf, if_pos hf, dictGet_dictSet_self]
    · rw [if_neg hf, if_neg hf]
      exact hsec
  have step3 : dictGet (if a.should_use_vpn
        then dictSet (if a.force_rebuild
          then dictSet (envSection dfltRev dfltImg a) "noCache" (.pybool true)
          else envSection dfltRev dfltImg a) "shouldUseVPN" (.str "on")
        else (if a.force_rebuild
          then dictSet (envSection dfltRev dfltImg a) "noCache" (.pybool true)
          else envSection dfltRev dfltImg a)) "noCache"
      = if a.force_rebuild then some (.pybool true) else none := by
    by_cases hv : a.should_use_vpn
    · rw [if_pos hv, dictGet_dictSet_other _ _ _ _ (by decide)]
      exact step2
    · rw [if_neg hv]
      exact step2
  unfold createRevisionFormPayload
  cases hc : a.cluster_types with
  | none => exact step3
  | some ct =>
    dsimp only
    by_cases hce : ct = ""
    · rw [if_pos hce]
      exact step3
    · rw [if_neg hce, dictGet_dictSet_other _ _ _ _ (by decide)]
      exact step3

theorem dictGet_payload_shouldUseVPN (dfltRev dfltImg : String) (a : RevisionArgs) :
    dictGet (createRevisionFormPayload dfltRev dfltImg a) "shouldUseVPN"
      = if a.should_use_vpn then some (.str "on") else none := by
  have hsec : dictGet (envSection dfltRev dfltImg a) "shouldUseVPN" = none :=
    envSection_no_flag_keys dfltRev dfltImg a "shouldUseVPN" (by decide) (by decide)
  have step2 : dictGet (if a.force_rebuild
        then dictSet (envSection dfltRev dfltImg a) "noCache" (.pybool true)
        else envSection dfltRev dfltImg a) "shouldUseVPN" = none := by
    by_cases hf : a.force_rebuild
    · rw [if_pos hf, dictGet_dictSet_other _ _ _ _ (by decide)]
      exact hsec
    · rw [if_neg hf]
      exact hsec
  have step3 : dictGet (if a.should_use_vpn
        then dictSet (if a.force_rebuild
          then dictSet (envSection dfltRev dfltImg a) "noCache" (.pybool true)
          else envSection dfltRev dfltImg a) "shouldUseVPN" (.str "on")
        else (if a.force_rebuild
          then dictSet (envSection dfltRev dfltImg a) "noCache" (.pybool true)
          else envSection dfltRev dfltImg a)) "shouldUseVPN"
      = if a.should_use_vpn then some (.str "on") else none := by
    by_cases hv : a.should_use_vpn
    · rw [if_pos hv, if_pos hv, dictGet_dictSet_self]
    · rw [if_neg hv, if_neg hv]
      exact step2
  unfold createRevisionFormPayload
  cases hc : a.cluster_types with
  | none => exact step3
  | some ct =>
    dsimp only
    by_cases hce : ct = ""
    · rw [if_pos hce]
      exact step3
    · rw [if_neg hce, dictGet_dictSet_other _ _ _ _ (by decide)]
      exact step3


/-- C4: the payload carries exactly the 2n environment-variable keys, in
input order, with the i-th pair under index i, and no other indices. -/
theorem c4_env_vars (dfltRev dfltImg : String) (a : RevisionArgs) :
    ((createRevisionFormPayload dfltRev dfltImg a).filter
        fun q => isEnvKey q.1).length = 2 * (envItemsOf a).length ∧
    ((createRevisionFormPayload dfltRev dfltImg a).filter
        fun q => isEnvKey q.1) = envPairs 0 (envItemsOf a) ∧
    ∀ i (h : i < (envItemsOf a).length),
      dictGet (createRevisionFormPayload dfltRev dfltImg a) (envVarKey i "].name")
          = some (.str ((envItemsOf a).get ⟨i, h⟩).1) ∧
      dictGet (createRevisionFormPayload dfltRev dfltImg a) (envVarKey i "].value")
          = some (.str ((envItemsOf a).get ⟨i, h⟩).2) := by
  refine ⟨?_, filter_isEnvKey_payload dfltRev dfltImg a, ?_⟩
  · rw [filter_isEnvKey_payload dfltRev dfltImg a]
    exact envPairs_length _ 0
  · intro i h
    have hpass : ∀ s : String, isEnvKey (envVarKey i s) = true →
        dictGet (createRevisionFormPayload dfltRev dfltImg a) (envVarKey i s)
          = dictGet (envPairs 0 (envItemsOf a)) (envVarKey i s) := by
      intro s hs
      rw [dictGet_payload_of_ne_flags dfltRev dfltImg a _
        (Ne.symm (ne_of_isEnvKey (by decide) hs))
        (Ne.symm (ne_of_isEnvKey (by decide) hs))
        (Ne.symm (ne_of_isEnvKey (by decide) hs))]
      rw [envSection_eq]
      refine dictGet_append_right _ _ _ ?_
      intro p hp
      have := baseKeys_not_env p.1 (basePairs_key_mem dfltRev dfltImg a p hp)
      exact ne_of_isEnvKey this hs
    have hget := envPairs_get (envItemsOf a) 0 i h
    rw [Nat.zero_add] at hget
    exact ⟨by rw [hpass _ (isEnvKey_envVarKey i "].name")]; exact hget.1,
           by rw [hpass _ (isEnvKey_envVarKey i "].value")]; exact hget.2⟩

theorem c4_env_vars_witness :
    (0 < (envItemsOf (RevisionArgs.mk "CustomImage" "" none none (.str "")
        (.str "") (.str "") (.str "") (.str "") (.str "")
        (some (.pairs [("A", "1"), ("B", "2")])) (.str "") false false none "")).length) ∧
    dictGet (createRevisionFormPayload "rev" "img"
        (RevisionArgs.mk "CustomImage" "" none none (.str "") (.str "") (.str "")
          (.str "") (.str "") (.str "")
          (some (.pairs [("A", "1"), ("B", "2")])) (.str "") false false none ""))
        (envVarKey 0 "].name") = some (.str "A") ∧
    dictGet (createRevisionFormPayload "rev" "img"
        (RevisionArgs.mk "CustomImage" "" none none (.str "") (.str "") (.str "")
          (.str "") (.str "") (.str "")
          (some (.pairs [("A", "1"), ("B", "2")])) (.str "") false false none ""))
        (envVarKey 1 "].value") = some (.str "2") :=
  ⟨by decide,
   ((c4_env_vars "rev" "img" _).2.2 0 (by decide)).1,
   ((c4_env_vars "rev" "img" _).2.2 1 (by decide)).2⟩

/-- C6 counterexample: with `force_rebuild` truthy the payload's `noCache`
value is the Python boolean `True`, not the string `"true"`. -/
theorem c6_counterexample :
    dictGet (createRevisionFormPayload "rev" "img"
      (RevisionArgs.mk "CustomImage" "" none none (.str "") (.str "") (.str "")
        (.str "") (.str "") (.str "") none (.str "") true true none "")) "noCache"
      = some (.pybool true) ∧
    dictGet (createRevisionFormPayload "rev" "img"
      (RevisionArgs.mk "CustomImage" "" none none (.str "") (.str "") (.str "")
        (.str "") (.str "") (.str "") none (.str "") true true none "")) "noCache"
      ≠ some (.str "true") := ⟨rfl, by decide⟩

/-- C6 amended: `noCache` maps to the boolean `True` exactly when
`force_rebuild` is truthy, `shouldUseVPN` maps to `"on"` exactly when
`should_use_vpn` is truthy, and a falsy flag leaves its key absent. -/
theorem c6_flags (dfltRev dfltImg : String) (a : RevisionArgs) :
    (dictGet (createRevisionFormPayload dfltRev dfltImg a) "noCache"
        = some (.pybool true) ↔ a.force_rebuild = true) ∧
    (a.force_rebuild = false →
      dictGet (createRevisionFormPayload dfltRev dfltImg a) "noCache" = none) ∧
    (dictGet (createRevisionFormPayload dfltRev dfltImg a) "shouldUseVPN"
        = some (.str "on") ↔ a.should_use_vpn = true) ∧
    (a.should_use_vpn = false →
      dictGet (createRevisionFormPayload dfltRev dfltImg a) "shouldUseVPN" = none) := by
  rw [dictGet_payload_noCache, dictGet_payload_shouldUseVPN]
  by_cases hf : a.force_rebuild <;> by_cases hv : a.should_use_vpn <;>
    simp [hf, hv]

theorem c6_flags_witness :
    (dictGet (createRevisionFormPayload "rev" "img"
        (RevisionArgs.mk "CustomImage" "" none none (.str "") (.str "") (.str "")
          (.str "") (.str "") (.str "") none (.str "") false false none ""))
        "noCache" = none) ∧
    (dictGet (createRevisionFormPayload "rev" "img"
        (RevisionArgs.mk "CustomImage" "" none none (.str "") (.str "") (.str "")
          (.str "") (.str "") (.str "") none (.str "") false false none ""))
        "shouldUseVPN" = none) :=
  ⟨(c6_flags "rev" "img" _).2.1 rfl, (c6_flags "rev" "img" _).2.2.2 rfl⟩

end DominoEnv
